import Mathlib

/-!
Verification development for the SpotterLabs fuel-route planner core:
the station spatial index (`server/routing/fuel_data.py`), the route
projector and the greedy fuel planner (`server/routing/fuel_optimizer.py`).

Modelling conventions.
All distances, coordinates and prices are embedded as rationals (`ℚ`);
the source computes over IEEE floats, whose rounding is not the subject
of any claim checked here.  The haversine great-circle distance
(`_haversine_miles` in the source) composes `sin`, `cos`, `sqrt` and
`atan2`, which have no exact rational embedding; the development is
therefore parameterised by the distance function `hav`, with the same
signature as the source function (lat1 lon1 lat2 lon2 ↦ miles).  Every
theorem below holds for an arbitrary `hav`; concrete witnesses
instantiate it with the computable taxicab distance `absHav`.
The float value `inf`, used by the projector as the initial best
off-route distance, is embedded as `⊤` in `WithTop ℚ`.
Python loops over a mutable cursor or accumulator are embedded as
structural recursion: the planner while-loop of `compute_fuel_plan`
(which terminates because each iteration advances the candidate cursor
by at least one) is embedded as `planRun`, iterated with the explicit
bound `candidates.length + 1`, an upper bound on the possible number of
iterations; its integer cursor `idx` into the sorted candidate list is
embedded as the remaining suffix `candidates.drop idx`.
-/

namespace Spotter

/-- Abstract distance function standing for `_haversine_miles` (see the
module docstring): arguments are lat1 lon1 lat2 lon2 in degrees, the
result is a distance in miles. -/
abbrev Hav : Type := ℚ → ℚ → ℚ → ℚ → ℚ

/-- `FuelStation` dataclass of `fuel_data.py`. -/
structure FuelStation where
  station_id : String
  name : String
  latitude : ℚ
  longitude : ℚ
  price_per_gallon : ℚ
deriving DecidableEq

/-- `RoutePoint` dataclass of `routing_api.py`. -/
structure RoutePoint where
  lat : ℚ
  lng : ℚ
deriving DecidableEq

/-- `RouteInfo` dataclass of `routing_api.py`. -/
structure RouteInfo where
  distance_miles : ℚ
  duration_seconds : ℚ
  geometry : List RoutePoint
deriving DecidableEq

/-- `FuelStopPlan` dataclass of `fuel_optimizer.py`. -/
structure FuelStopPlan where
  station : FuelStation
  distance_along_route_miles : ℚ
  gallons_purchased : ℚ
  cost_usd : ℚ
deriving DecidableEq

/-- `station_indices_within_radius` of `fuel_data.py`: indices (into the
memoized catalog) of stations within `radius_miles` of the query point.
The source iterates `enumerate(_station_coords_rad)` where
`_station_coords_rad` holds the radian coordinates of exactly the cached
catalog entries and evaluates the inlined haversine formula on them;
the radians conversion composed with that formula is the abstracted
`hav` applied to the degree coordinates. -/
def station_indices_within_radius (hav : Hav) (catalog : List FuelStation)
    (lat lon radius_miles : ℚ) : List Nat :=
  ((catalog.enum).filter
    (fun p => decide (hav p.2.latitude p.2.longitude lat lon ≤ radius_miles))).map Prod.fst

/-- Sampled vertex indices of `station_indices_near_route`: the source
iterates `range(0, n, step)` with `step = max(1, n // 150)`, one radius
query per sampled index.  `range(0, n, step)` enumerates exactly the
multiples of `step` below `n`. -/
def sampled_vertex_indices (n : Nat) : List Nat :=
  if n = 0 then []
  else (List.range n).filter (fun i => decide (i % max 1 (n / 150) = 0))

/-- Number of radius queries issued by `station_indices_near_route` on a
route polyline with `n` vertices (one `station_indices_within_radius`
call per sampled vertex). -/
def num_radius_queries (n : Nat) : Nat :=
  (sampled_vertex_indices n).length

/-- `station_indices_near_route` of `fuel_data.py`: the union of the
radius-query results over the sampled vertices, deduplicated and sorted
(the source builds a Python `set` and returns `sorted(idxs_set)`). -/
def station_indices_near_route (hav : Hav) (catalog : List FuelStation)
    (route_geometry : List RoutePoint) (max_off_route_miles : ℚ) : List Nat :=
  let sampled_pts := (sampled_vertex_indices route_geometry.length).filterMap
    (fun i => route_geometry.get? i)
  let found := (sampled_pts.map
    (fun pt => station_indices_within_radius hav catalog pt.lat pt.lng max_off_route_miles)).flatten
  List.insertionSort (fun a b => a ≤ b) found.dedup

/-- `_build_route_distances` of `fuel_optimizer.py`: cumulative distances
at each vertex, entry 0 is `0.0` and entry `i` adds the distance of the
segment from vertex `i-1` to vertex `i` (the running `total` of the
source loop is the `scanl` accumulator; `pts.zip pts.tail` enumerates
the consecutive segments). -/
def _build_route_distances (hav : Hav) (route : RouteInfo) : List ℚ :=
  (route.geometry.zip route.geometry.tail).scanl
    (fun total seg => total + hav seg.1.lat seg.1.lng seg.2.lat seg.2.lng) 0

/-- Per-segment data of the `_project_station_onto_route` loop: for the
segment ending at vertex `i` (`i` ranges over `1 ..< len(pts)` as in the
source `for` loop, tagged here by `enumFrom 1`), the smaller of the two
haversine distances from the station to the segment endpoints. -/
def _segment_endpoint_dists (hav : Hav) (station : FuelStation)
    (pts : List RoutePoint) : List (Nat × ℚ) :=
  (List.enumFrom 1 (pts.zip pts.tail)).map
    (fun iseg =>
      (iseg.1,
        min (hav station.latitude station.longitude iseg.2.1.lat iseg.2.1.lng)
            (hav station.latitude station.longitude iseg.2.2.lat iseg.2.2.lng)))

/-- State-passing loop of `_project_station_onto_route`: the running
`(best_along, best_off)` pair, updated (strict improvement only) with
`best_along = cum_dists[i]`, the cumulative distance at the segment END
vertex, exactly as the source line `best_along = cum_dists[i]`. -/
def projFold (cum_dists : List ℚ) :
    ℚ × WithTop ℚ → List (Nat × ℚ) → ℚ × WithTop ℚ
  | best, [] => best
  | best, iv :: rest =>
      projFold cum_dists
        (if (iv.2 : WithTop ℚ) < best.2 then (cum_dists.getD iv.1 0, (iv.2 : WithTop ℚ))
         else best) rest

/-- `_project_station_onto_route` of `fuel_optimizer.py`; returns the
pair (distance along route, distance off route), the latter `⊤` (float
`inf` in the source) when the polyline has fewer than two vertices.
The source reads `cum_dists[i]` with `i` always in range; the embedding
uses `getD _ 0`, whose default is never taken on the lists produced by
`_build_route_distances`. -/
def _project_station_onto_route (hav : Hav) (station : FuelStation)
    (route : RouteInfo) (cum_dists : List ℚ) : ℚ × WithTop ℚ :=
  projFold cum_dists (0, ⊤) (_segment_endpoint_dists hav station route.geometry)

/-- `_stations_along_route` of `fuel_optimizer.py`: project each
candidate station (prefiltered by the spatial index) onto the route,
keep those within `max_off_route_miles`, and sort by distance along the
route (Python `list.sort` is stable; `insertionSort` likewise).  The
source reads station `i` of the passed iterable while the indices come
from the memoized catalog; its only caller passes that same catalog, so
the embedding uses one list for both, and the `get?` lookup (Python
`stations_list[i]`) is shown elsewhere to always be in bounds.  The
`except` fallback to a full scan is unreachable in this pure model. -/
def _stations_along_route (hav : Hav) (stations : List FuelStation)
    (route : RouteInfo) (max_off_route_miles : ℚ) : List (FuelStation × ℚ) :=
  let cum := _build_route_distances hav route
  let candidate_idxs := station_indices_near_route hav stations route.geometry max_off_route_miles
  let results := candidate_idxs.filterMap
    (fun i => (stations.get? i).bind
      (fun s =>
        let ao := _project_station_onto_route hav s route cum
        if ao.2 ≤ (max_off_route_miles : WithTop ℚ) then some (s, ao.1) else none))
  List.insertionSort (fun a b => a.2 ≤ b.2) results

/-- Epsilon of the source comparisons `> 1e-6` and `<= 1e-6`. -/
def eps : ℚ := 1 / 1000000

/-- Terminal outcome of the planning loop (spec section 4.4): `arrived`
for the loop exits that can still finish the route, `stranded` for the
`if not reachable: break`. -/
inductive Terminal where
  | arrived : Terminal
  | stranded : Terminal
deriving DecidableEq

/-- Loop state of `compute_fuel_plan`: `current_pos` and
`fuel_in_tank_miles` as in the source, the cursor `idx` embedded as the
`remaining` suffix `candidates.drop idx`, and the accumulated `stops`. -/
structure PlanState where
  current_pos : ℚ
  fuel_in_tank_miles : ℚ
  remaining : List (FuelStation × ℚ)
  stops : List FuelStopPlan
deriving DecidableEq

/-- Inner `while` of `compute_fuel_plan` (lines 166-170): scan the
remaining candidates while their distance is `<= max_reach`, keeping
those with distance `>= current_pos`; returns the kept list and the
number of candidates consumed (the advance of `idx`). -/
def collectReachable (current_pos max_reach : ℚ) :
    List (FuelStation × ℚ) → List (FuelStation × ℚ) × Nat
  | [] => ([], 0)
  | c :: rest =>
      if c.2 ≤ max_reach then
        let r := collectReachable current_pos max_reach rest
        (if current_pos ≤ c.2 then c :: r.1 else r.1, r.2 + 1)
      else ([], 0)

/-- Python `min(lst, key=f)`: the first element attaining the minimal
key (later elements replace the running best only on strict `<`);
`none` on the empty list (where the source would raise). -/
def minByKey {α : Type} (f : α → ℚ) : List α → Option α
  | [] => none
  | x :: xs => some (xs.foldl (fun acc y => if f y < f acc then y else acc) x)

/-- One iteration of the `while current_pos < route_distance` loop of
`compute_fuel_plan` (lines 143-223), including the loop condition test:
`Sum.inr` for the three loop exits (final-stretch break, stranded
break, condition false), `Sum.inl` for the next loop state. -/
def planStep (candidates : List (FuelStation × ℚ))
    (route_distance vehicle_range_miles mpg : ℚ) (s : PlanState) :
    PlanState ⊕ (List FuelStopPlan × Terminal) :=
  if s.current_pos < route_distance then
    let max_reach := s.current_pos + vehicle_range_miles
    if route_distance ≤ max_reach then
      let distance_needed := max 0 (route_distance - s.current_pos - s.fuel_in_tank_miles)
      if eps < distance_needed then
        match s.stops.getLast? with
        | some prev =>
            let gallons := distance_needed / mpg
            Sum.inr (s.stops ++ [⟨prev.station, s.current_pos, gallons,
              gallons * prev.station.price_per_gallon⟩], Terminal.arrived)
        | none => Sum.inr (s.stops, Terminal.arrived)
      else Sum.inr (s.stops, Terminal.arrived)
    else
      let rk := collectReachable s.current_pos max_reach s.remaining
      match minByKey (fun c => c.1.price_per_gallon) rk.1 with
      | none => Sum.inr (s.stops, Terminal.stranded)
      | some cheapest =>
          let fuel_after_move := s.fuel_in_tank_miles - max 0 (cheapest.2 - s.current_pos)
          let pos := cheapest.2
          let max_from_here := pos + vehicle_range_miles
          let cheaper_within_range := candidates.filter
            (fun c => decide (pos < c.2) && decide (c.2 ≤ max_from_here) &&
              decide (c.1.price_per_gallon < cheapest.1.price_per_gallon))
          let distance_needed0 :=
            match minByKey (fun c => c.2) cheaper_within_range with
            | some nc => max 0 (nc.2 - pos)
            | none => vehicle_range_miles
          let distance_needed := min distance_needed0 (route_distance - pos)
          let additional_needed := max 0 (distance_needed - fuel_after_move)
          if additional_needed ≤ eps then
            Sum.inl ⟨pos, fuel_after_move, s.remaining.drop rk.2, s.stops⟩
          else
            let gallons := additional_needed / mpg
            Sum.inl ⟨pos, fuel_after_move + additional_needed, s.remaining.drop rk.2,
              s.stops ++ [⟨cheapest.1, pos, gallons, gallons * cheapest.1.price_per_gallon⟩]⟩
  else Sum.inr (s.stops, Terminal.arrived)

/-- The planning loop: iterate `planStep` with an explicit iteration
bound (see the module docstring; each continuing iteration consumes at
least one candidate, so `candidates.length + 1` iterations always reach
a loop exit and the fuel-out fallback value is never taken from the
initial state used by `compute_fuel_plan`). -/
def planRun (candidates : List (FuelStation × ℚ))
    (route_distance vehicle_range_miles mpg : ℚ) :
    Nat → PlanState → List FuelStopPlan × Terminal
  | 0, s => (s.stops, Terminal.stranded)
  | n + 1, s =>
      match planStep candidates route_distance vehicle_range_miles mpg s with
      | Sum.inr r => r
      | Sum.inl s1 => planRun candidates route_distance vehicle_range_miles mpg n s1

/-- The greedy planner of `compute_fuel_plan` run on an
already-filtered, sorted candidate list, from the initial state of
lines 138-141 (`current_pos = 0`, a full tank); also reports the
terminal outcome of the loop. -/
def compute_fuel_plan_from_candidates (candidates : List (FuelStation × ℚ))
    (route_distance vehicle_range_miles mpg : ℚ) : List FuelStopPlan × Terminal :=
  planRun candidates route_distance vehicle_range_miles mpg (candidates.length + 1)
    ⟨0, vehicle_range_miles, candidates, []⟩

/-- `compute_fuel_plan` of `fuel_optimizer.py`: filter and sort the
candidates with the default corridor threshold `10.0` miles, return
`[]` when there are none (`if not candidates: return []`), otherwise
run the greedy loop.  `vehicle_range_miles` and `mpg` are the explicit
parameters (the source defaults them to the Django settings values 500
and 10 when omitted). -/
def compute_fuel_plan (hav : Hav) (stations : List FuelStation) (route : RouteInfo)
    (vehicle_range_miles mpg : ℚ) : List FuelStopPlan :=
  let candidates := _stations_along_route hav stations route 10
  if candidates.isEmpty then []
  else (compute_fuel_plan_from_candidates candidates route.distance_miles
    vehicle_range_miles mpg).1

/-- One full planner iteration as a transition relation on loop states:
`a` steps to `b` when `planStep` continues the loop with next state `b`. -/
def planStepRel (candidates : List (FuelStation × ℚ))
    (route_distance vehicle_range_miles mpg : ℚ) (a b : PlanState) : Prop :=
  planStep candidates route_distance vehicle_range_miles mpg a = Sum.inl b

/-- Concrete computable stand-in for the haversine distance used by the
witnesses and counterexamples: the taxicab distance on degree
coordinates (like the haversine it is a metric, zero exactly on equal
points, and increasing with coordinate separation near the equator). -/
def absHav : Hav := fun lat1 lon1 lat2 lon2 => |lat1 - lat2| + |lon1 - lon2|

/-- Station used by the stranding counterexample, price 2.0. -/
def stationA : FuelStation := ⟨"A", "Station A", 0, 0, 2⟩

/-- Station used by the stranding counterexample, price 3.0. -/
def stationB : FuelStation := ⟨"B", "Station B", 0, 0, 3⟩

/-- Sorted candidate list of the stranding counterexample: two stations
at miles 10 and 20 of a 1000-mile route. -/
def strandCands : List (FuelStation × ℚ) := [(stationA, 10), (stationB, 20)]

/-- The single stop the planner records on `strandCands` before it
strands: at mile 10, one gallon at price 2.0. -/
def strandStop : FuelStopPlan := ⟨stationA, 10, 1, 2⟩

/-- Station of the projection counterexample. -/
def cexStation : FuelStation := ⟨"S", "Station S", 0, 0, 3⟩

/-- Route of the projection counterexample: three collinear vertices one
degree apart, with the station sitting exactly on the first vertex. -/
def cexRoute : RouteInfo := ⟨2, 60, [⟨0, 0⟩, ⟨1, 0⟩, ⟨2, 0⟩]⟩

/-- Station of the single-mandatory-stop scenario, arbitrary price 4.0. -/
def c4Station : FuelStation := ⟨"C", "Station C", 0, 0, 4⟩

/-- One-station catalog for the corridor-threshold and index-bounds
witnesses. -/
def wCatalog : List FuelStation := [⟨"W", "Station W", 0, 0, 3⟩]

/-- Two-vertex route for the corridor-threshold witness. -/
def wRoute : RouteInfo := ⟨1, 60, [⟨0, 0⟩, ⟨1, 0⟩]⟩

/-! Helper lemmas about the embedded list operations and the planner loop. -/

theorem foldl_minBy_mem {α : Type} (f : α → ℚ) :
    ∀ (xs : List α) (a : α),
      xs.foldl (fun acc y => if f y < f acc then y else acc) a ∈ a :: xs := by
  intro xs
  induction xs with
  | nil => intro a; exact List.mem_singleton_self a
  | cons y ys ih =>
    intro a
    simp only [List.foldl_cons]
    by_cases h : f y < f a
    · rw [if_pos h]
      rcases List.mem_cons.mp (ih y) with h1 | h1 <;> simp_all
    · rw [if_neg h]
      rcases List.mem_cons.mp (ih a) with h1 | h1 <;> simp_all

theorem minByKey_mem {α : Type} (f : α → ℚ) (l : List α) (x : α)
    (h : minByKey f l = some x) : x ∈ l := by
  cases l with
  | nil => simp [minByKey] at h
  | cons a as =>
    simp only [minByKey, Option.some.injEq] at h
    subst h
    exact foldl_minBy_mem f as a

theorem minByKey_eq_none_iff {α : Type} (f : α → ℚ) (l : List α) :
    minByKey f l = none ↔ l = [] := by
  cases l <;> simp [minByKey]

theorem collectReachable_mem (p mr : ℚ) :
    ∀ (l : List (FuelStation × ℚ)) (x : FuelStation × ℚ),
      x ∈ (collectReachable p mr l).1 → x ∈ l ∧ p ≤ x.2 ∧ x.2 ≤ mr := by
  intro l
  induction l with
  | nil => intro x hx; simp [collectReachable] at hx
  | cons c rest ih =>
    intro x hx
    simp only [collectReachable] at hx
    by_cases h1 : c.2 ≤ mr
    · rw [if_pos h1] at hx
      by_cases h2 : p ≤ c.2
      · rw [if_pos h2] at hx
        rcases List.mem_cons.mp hx with h3 | h3
        · subst h3; exact ⟨List.mem_cons_self _ _, h2, h1⟩
        · obtain ⟨hm, hp, hr⟩ := ih x h3
          exact ⟨List.mem_cons_of_mem _ hm, hp, hr⟩
      · rw [if_neg h2] at hx
        obtain ⟨hm, hp, hr⟩ := ih x hx
        exact ⟨List.mem_cons_of_mem _ hm, hp, hr⟩
    · rw [if_neg h1] at hx
      simp at hx

theorem collectReachable_nil_iff (p mr : ℚ) :
    ∀ (l : List (FuelStation × ℚ)), l.Pairwise (fun a b => a.2 ≤ b.2) →
      ((collectReachable p mr l).1 = [] ↔ ∀ x ∈ l, ¬(p ≤ x.2 ∧ x.2 ≤ mr)) := by
  intro l
  induction l with
  | nil => intro _; simp [collectReachable]
  | cons c rest ih =>
    intro hsort
    obtain ⟨hhead, htail⟩ := List.pairwise_cons.mp hsort
    simp only [collectReachable]
    by_cases h1 : c.2 ≤ mr
    · rw [if_pos h1]
      by_cases h2 : p ≤ c.2
      · rw [if_pos h2]
        constructor
        · intro heq; exact absurd heq (List.cons_ne_nil _ _)
        · intro hall
          exact ((hall c (List.mem_cons_self c rest)) ⟨h2, h1⟩).elim
      · rw [if_neg h2]
        rw [ih htail]
        constructor
        · intro hall x hx
          rcases List.mem_cons.mp hx with h3 | h3
          · subst h3; exact fun hc => h2 hc.1
          · exact hall x h3
        · intro hall x hx
          exact hall x (List.mem_cons_of_mem _ hx)
    · rw [if_neg h1]
      constructor
      · intro _ x hx
        rcases List.mem_cons.mp hx with h3 | h3
        · subst h3; exact fun hc => h1 hc.2
        · exact fun hc => h1 (le_trans (hhead x h3) hc.2)
      · intro _; rfl

/-! Helper lemmas about the embedded operations. -/

/-- Counting multiples of a stride below `n` (the length of the sampled
index list). -/
theorem range_filter_mod_length (s : Nat) :
    ∀ n : Nat, 0 < n →
      ((List.range n).filter (fun i => decide (i % s = 0))).length = (n - 1) / s + 1 := by
  intro n
  induction n with
  | zero => intro h; exact absurd h (lt_irrefl 0)
  | succ m ih =>
    intro _
    rw [List.range_succ, List.filter_append, List.length_append]
    rcases Nat.eq_zero_or_pos m with hm | hm
    · subst hm
      simp
    · rw [ih hm]
      have hm1 : m - 1 + 1 = m := Nat.succ_pred_eq_of_pos hm
      have hsd : m / s = (m - 1) / s + if s ∣ m then 1 else 0 := by
        conv_lhs => rw [← hm1]
        rw [Nat.succ_div, hm1]
      by_cases hdvd : m % s = 0
      · rw [if_pos (Nat.dvd_of_mod_eq_zero hdvd)] at hsd
        simp only [List.filter, hdvd, decide_eq_true_eq, Nat.succ_sub_one]
        simp [hsd]
      · rw [if_neg (fun hd => hdvd (Nat.mod_eq_zero_of_dvd hd))] at hsd
        simp only [List.filter, Nat.succ_sub_one]
        simp [hdvd, hsd]

/-- Once the remaining route fits in the tank, the loop exits at once
with the accumulated stops (the planner Arrived exit). -/
theorem planRun_arrived (candidates : List (FuelStation × ℚ))
    (route_distance vehicle_range_miles mpg : ℚ) (n : Nat) (s : PlanState)
    (hfuel : s.fuel_in_tank_miles ≤ vehicle_range_miles)
    (hreach : route_distance ≤ s.current_pos + s.fuel_in_tank_miles) :
    planRun candidates route_distance vehicle_range_miles mpg (n + 1) s =
      (s.stops, Terminal.arrived) := by
  simp only [planRun]
  by_cases hpos : s.current_pos < route_distance
  · have h2 : route_distance ≤ s.current_pos + vehicle_range_miles := by linarith
    have h3 : max 0 (route_distance - s.current_pos - s.fuel_in_tank_miles) = 0 :=
      max_eq_left (by linarith)
    have h4 : ¬ eps < (0 : ℚ) := by norm_num [eps]
    simp only [planStep, if_pos hpos, if_pos h2, h3, if_neg h4]
  · simp only [planStep, if_neg hpos]

/-- Adding the still-missing amount tops the tank to the target. -/
theorem add_max_sub_eq (a b : ℚ) : a + max 0 (b - a) = max a b := by
  rcases le_total b a with h | h
  · rw [max_eq_left (by linarith), max_eq_left h]
    ring
  · rw [max_eq_right (by linarith), max_eq_right h]
    ring

/-- One loop iteration keeps the tank within capacity: each purchase is
clamped by a target that never exceeds the vehicle range. -/
theorem planStep_fuel_le (candidates : List (FuelStation × ℚ))
    (route_distance vehicle_range_miles mpg : ℚ) (s s1 : PlanState)
    (hrange : 0 ≤ vehicle_range_miles)
    (hfuel : s.fuel_in_tank_miles ≤ vehicle_range_miles)
    (hstep : planStep candidates route_distance vehicle_range_miles mpg s = Sum.inl s1) :
    s1.fuel_in_tank_miles ≤ vehicle_range_miles := by
  by_cases hpos : s.current_pos < route_distance
  · by_cases hnear : route_distance ≤ s.current_pos + vehicle_range_miles
    · simp only [planStep, if_pos hpos, if_pos hnear] at hstep
      split at hstep
      · split at hstep <;> simp at hstep
      · simp at hstep
    · simp only [planStep, if_pos hpos, if_neg hnear] at hstep
      rcases hmk : minByKey (fun c : FuelStation × ℚ => c.1.price_per_gallon)
          (collectReachable s.current_pos (s.current_pos + vehicle_range_miles)
            s.remaining).1 with _ | cheapest
      · simp only [hmk] at hstep
        simp at hstep
      · simp only [hmk] at hstep
        have hmove : s.fuel_in_tank_miles - max 0 (cheapest.2 - s.current_pos) ≤
            vehicle_range_miles := by
          have := le_max_left (0 : ℚ) (cheapest.2 - s.current_pos)
          linarith
        split at hstep
        · obtain rfl := Sum.inl.inj hstep
          exact hmove
        · obtain rfl := Sum.inl.inj hstep
          dsimp only
          rw [add_max_sub_eq]
          rcases hmk2 : minByKey (fun c : FuelStation × ℚ => c.2)
              (candidates.filter (fun c =>
                decide (cheapest.2 < c.2) &&
                  decide (c.2 ≤ cheapest.2 + vehicle_range_miles) &&
                  decide (c.1.price_per_gallon < cheapest.1.price_per_gallon)))
            with _ | nc
          · simp only [hmk2]
            exact max_le hmove (le_trans (min_le_left _ _) (le_refl _))
          · simp only [hmk2]
            have hncmem := minByKey_mem _ _ _ hmk2
            have hcond := (List.mem_filter.mp hncmem).2
            have hcle : nc.2 ≤ cheapest.2 + vehicle_range_miles := by
              simp only [Bool.and_eq_true, decide_eq_true_eq] at hcond
              exact hcond.1.2
            refine max_le hmove (le_trans (min_le_left _ _) ?_)
            exact max_le hrange (by linarith)
  · simp only [planStep, if_neg hpos] at hstep
    simp at hstep

/-- A continuing iteration never moves backwards, and appends at most
one stop, located at the new position. -/
theorem planStep_inl_spec (candidates : List (FuelStation × ℚ))
    (route_distance vehicle_range_miles mpg : ℚ) (s s1 : PlanState)
    (hstep : planStep candidates route_distance vehicle_range_miles mpg s = Sum.inl s1) :
    s.current_pos ≤ s1.current_pos ∧
    (s1.stops = s.stops ∨
      ∃ st, s1.stops = s.stops ++ [st] ∧
        st.distance_along_route_miles = s1.current_pos) := by
  by_cases hpos : s.current_pos < route_distance
  · by_cases hnear : route_distance ≤ s.current_pos + vehicle_range_miles
    · simp only [planStep, if_pos hpos, if_pos hnear] at hstep
      split at hstep
      · split at hstep <;> simp at hstep
      · simp at hstep
    · simp only [planStep, if_pos hpos, if_neg hnear] at hstep
      rcases hmk : minByKey (fun c : FuelStation × ℚ => c.1.price_per_gallon)
          (collectReachable s.current_pos (s.current_pos + vehicle_range_miles)
            s.remaining).1 with _ | cheapest
      · simp only [hmk] at hstep
        simp at hstep
      · simp only [hmk] at hstep
        have hge := (collectReachable_mem _ _ _ _ (minByKey_mem _ _ _ hmk)).2.1
        split at hstep
        · obtain rfl := Sum.inl.inj hstep
          exact ⟨hge, Or.inl rfl⟩
        · obtain rfl := Sum.inl.inj hstep
          exact ⟨hge, Or.inr ⟨_, rfl, rfl⟩⟩
  · simp only [planStep, if_neg hpos] at hstep
    simp at hstep

/-- A loop exit returns the accumulated stops, possibly extended by one
final stop recorded at the current position. -/
theorem planStep_inr_spec (candidates : List (FuelStation × ℚ))
    (route_distance vehicle_range_miles mpg : ℚ) (s : PlanState)
    (r : List FuelStopPlan × Terminal)
    (hstep : planStep candidates route_distance vehicle_range_miles mpg s = Sum.inr r) :
    r.1 = s.stops ∨
      ∃ st, r.1 = s.stops ++ [st] ∧
        st.distance_along_route_miles = s.current_pos := by
  by_cases hpos : s.current_pos < route_distance
  · by_cases hnear : route_distance ≤ s.current_pos + vehicle_range_miles
    · simp only [planStep, if_pos hpos, if_pos hnear] at hstep
      split at hstep
      · split at hstep
        · obtain rfl := (Sum.inr.inj hstep).symm
          exact Or.inr ⟨_, rfl, rfl⟩
        · obtain rfl := (Sum.inr.inj hstep).symm
          exact Or.inl rfl
      · obtain rfl := (Sum.inr.inj hstep).symm
        exact Or.inl rfl
    · simp only [planStep, if_pos hpos, if_neg hnear] at hstep
      rcases hmk : minByKey (fun c : FuelStation × ℚ => c.1.price_per_gallon)
          (collectReachable s.current_pos (s.current_pos + vehicle_range_miles)
            s.remaining).1 with _ | cheapest
      · simp only [hmk] at hstep
        obtain rfl := (Sum.inr.inj hstep).symm
        exact Or.inl rfl
      · simp only [hmk] at hstep
        split at hstep <;> simp at hstep
  · simp only [planStep, if_neg hpos] at hstep
    obtain rfl := (Sum.inr.inj hstep).symm
    exact Or.inl rfl

/-- Appending one stop beyond every recorded distance keeps the list
sorted. -/
theorem chain_append_singleton (l : List FuelStopPlan) (st : FuelStopPlan) (p : ℚ)
    (hch : List.Chain' (fun a b =>
      a.distance_along_route_miles ≤ b.distance_along_route_miles) l)
    (hbound : ∀ x ∈ l, x.distance_along_route_miles ≤ p)
    (hst : p ≤ st.distance_along_route_miles) :
    List.Chain' (fun a b =>
      a.distance_along_route_miles ≤ b.distance_along_route_miles) (l ++ [st]) := by
  rw [List.chain'_append]
  refine ⟨hch, List.chain'_singleton _, ?_⟩
  intro x hx y hy
  simp only [List.head?_cons, Option.mem_def, Option.some.injEq] at hy
  subst hy
  obtain ⟨hne, hx2⟩ := List.mem_getLast?_eq_getLast hx
  have hxmem : x ∈ l := hx2 ▸ List.getLast_mem hne
  exact le_trans (hbound x hxmem) hst

/-- The whole loop keeps the stop list sorted by distance along the
route, given that the accumulated stops are sorted and behind the
current position. -/
theorem planRun_stops_chain (candidates : List (FuelStation × ℚ))
    (route_distance vehicle_range_miles mpg : ℚ) :
    ∀ (n : Nat) (s : PlanState),
      List.Chain' (fun a b =>
        a.distance_along_route_miles ≤ b.distance_along_route_miles) s.stops →
      (∀ st ∈ s.stops, st.distance_along_route_miles ≤ s.current_pos) →
      List.Chain' (fun a b =>
        a.distance_along_route_miles ≤ b.distance_along_route_miles)
        (planRun candidates route_distance vehicle_range_miles mpg n s).1 := by
  intro n
  induction n with
  | zero => intro s hch _; simpa [planRun] using hch
  | succ m ih =>
    intro s hch hbound
    simp only [planRun]
    rcases hstep : planStep candidates route_distance vehicle_range_miles mpg s
      with s1 | r
    · obtain ⟨hle, hst⟩ := planStep_inl_spec candidates _ _ _ s s1 hstep
      refine ih s1 ?_ ?_
      · rcases hst with h | ⟨st, heq, hd⟩
        · rwa [h]
        · rw [heq]
          exact chain_append_singleton _ _ s.current_pos hch hbound (hd ▸ hle)
      · rcases hst with h | ⟨st, heq, hd⟩
        · rw [h]
          intro st1 hst1
          exact le_trans (hbound st1 hst1) hle
        · rw [heq]
          intro st1 hst1
          rcases List.mem_append.mp hst1 with h1 | h1
          · exact le_trans (hbound st1 h1) hle
          · rw [List.mem_singleton.mp h1, hd]
    · obtain h | ⟨st, heq, hd⟩ := planStep_inr_spec candidates _ _ _ s r hstep
      · rwa [h]
      · rw [heq]
        exact chain_append_singleton _ _ s.current_pos hch hbound (le_of_eq hd.symm)

/-- The tracked best off-route distance of the projection loop is the
running minimum of the per-segment values. -/
theorem projFold_snd (cum : List ℚ) :
    ∀ (l : List (Nat × ℚ)) (best : ℚ × WithTop ℚ),
      (projFold cum best l).2 =
        l.foldl (fun acc iv => min acc (iv.2 : WithTop ℚ)) best.2 := by
  intro l
  induction l with
  | nil => intro best; simp [projFold]
  | cons iv rest ih =>
    intro best
    simp only [projFold, List.foldl_cons]
    by_cases h : (iv.2 : WithTop ℚ) < best.2
    · rw [if_pos h, ih]
      congr 1
      exact (min_eq_right (le_of_lt h)).symm
    · rw [if_neg h, ih]
      congr 1
      exact (min_eq_left (not_lt.mp h)).symm

/-- Folding a minimum never rises above its start. -/
theorem foldl_min_le_self (b : WithTop ℚ) :
    ∀ (l : List (Nat × ℚ)),
      l.foldl (fun acc iv => min acc (iv.2 : WithTop ℚ)) b ≤ b := by
  intro l
  induction l generalizing b with
  | nil => exact le_refl b
  | cons iv rest ih =>
    simp only [List.foldl_cons]
    exact le_trans (ih (min b iv.2)) (min_le_left _ _)

/-- Folding a minimum bounds every list element. -/
theorem foldl_min_le_mem (b : WithTop ℚ) :
    ∀ (l : List (Nat × ℚ)), ∀ iv ∈ l,
      l.foldl (fun acc iv => min acc (iv.2 : WithTop ℚ)) b ≤ (iv.2 : WithTop ℚ) := by
  intro l
  induction l generalizing b with
  | nil => intro iv h; simp at h
  | cons hd rest ih =>
    intro iv hiv
    rcases List.mem_cons.mp hiv with h | h
    · subst h
      simp only [List.foldl_cons]
      exact le_trans (foldl_min_le_self _ _) (min_le_right _ _)
    · simp only [List.foldl_cons]
      exact ih (min b hd.2) iv h

/-- Full characterisation of the projection loop: either no segment
improves on the initial best (and the state is returned unchanged), or
the result records the FIRST segment attaining the final minimum, with
`best_along` read at that segment END index, and every earlier segment
strictly worse. -/
theorem projFold_fst_spec (cum : List ℚ) :
    ∀ (l : List (Nat × ℚ)) (best : ℚ × WithTop ℚ),
      ((∀ iv ∈ l, ¬((iv.2 : WithTop ℚ) < best.2)) ∧ projFold cum best l = best) ∨
      (∃ l1 iv l2, l = l1 ++ iv :: l2 ∧ ((iv.2 : WithTop ℚ) < best.2) ∧
        (projFold cum best l).2 = (iv.2 : WithTop ℚ) ∧
        (projFold cum best l).1 = cum.getD iv.1 0 ∧
        ∀ jv ∈ l1, (projFold cum best l).2 < (jv.2 : WithTop ℚ)) := by
  intro l
  induction l with
  | nil => intro best; exact Or.inl ⟨by simp, rfl⟩
  | cons iv rest ih =>
    intro best
    by_cases h : (iv.2 : WithTop ℚ) < best.2
    · have hfold : projFold cum best (iv :: rest) =
          projFold cum (cum.getD iv.1 0, (iv.2 : WithTop ℚ)) rest := by
        simp only [projFold, if_pos h]
      rcases ih (cum.getD iv.1 0, (iv.2 : WithTop ℚ)) with
        ⟨hall, heq⟩ | ⟨l1, jv, l2, hsplit, hlt, hsnd, hfst, hprev⟩
      · refine Or.inr ⟨[], iv, rest, rfl, h, ?_, ?_, by simp⟩
        · rw [hfold, heq]
        · rw [hfold, heq]
      · refine Or.inr ⟨iv :: l1, jv, l2, by rw [hsplit, List.cons_append],
          lt_trans hlt h, ?_, ?_, ?_⟩
        · rw [hfold]; exact hsnd
        · rw [hfold]; exact hfst
        · intro kv hkv
          rcases List.mem_cons.mp hkv with hk | hk
          · subst hk
            rw [hfold, hsnd]
            exact hlt
          · rw [hfold]
            exact hprev kv hk
    · have hfold : projFold cum best (iv :: rest) = projFold cum best rest := by
        simp only [projFold, if_neg h]
      rcases ih best with
        ⟨hall, heq⟩ | ⟨l1, jv, l2, hsplit, hlt, hsnd, hfst, hprev⟩
      · refine Or.inl ⟨?_, by rw [hfold, heq]⟩
        intro kv hkv
        rcases List.mem_cons.mp hkv with hk | hk
        · subst hk; exact h
        · exact hall kv hk
      · refine Or.inr ⟨iv :: l1, jv, l2, by rw [hsplit, List.cons_append],
          hlt, ?_, ?_, ?_⟩
        · rw [hfold]; exact hsnd
        · rw [hfold]; exact hfst
        · intro kv hkv
          rcases List.mem_cons.mp hkv with hk | hk
          · subst hk
            rw [hfold, hsnd]
            exact lt_of_lt_of_le hlt (not_lt.mp h)
          · rw [hfold]
            exact hprev kv hk

/-- Radius-query indices come from enumerating the catalog, hence are
in bounds. -/
theorem mem_station_indices_within_radius (hav : Hav) (catalog : List FuelStation)
    (lat lon radius : ℚ) (i : Nat)
    (h : i ∈ station_indices_within_radius hav catalog lat lon radius) :
    i < catalog.length := by
  unfold station_indices_within_radius at h
  obtain ⟨p, hp, hpi⟩ := List.mem_map.mp h
  obtain ⟨j, s⟩ := p
  subst hpi
  have hmem := (List.mem_filter.mp hp).1
  simp only [List.enum] at hmem
  have := List.mem_enumFrom hmem
  omega

/-- Near-route indices are a sorted union of radius-query results,
hence also in bounds. -/
theorem mem_station_indices_near_route (hav : Hav) (catalog : List FuelStation)
    (geom : List RoutePoint) (r : ℚ) (i : Nat)
    (h : i ∈ station_indices_near_route hav catalog geom r) :
    i < catalog.length := by
  simp only [station_indices_near_route] at h
  rw [List.mem_insertionSort, List.mem_dedup, List.mem_flatten] at h
  obtain ⟨l, hl, hil⟩ := h
  obtain ⟨pt, _, rfl⟩ := List.mem_map.mp hl
  exact mem_station_indices_within_radius hav catalog pt.lat pt.lng r i hil

/-- Every accepted candidate passed the off-route test against the
threshold, and its index came from the near-route query with that same
threshold as radius. -/
theorem mem_stations_along_route (hav : Hav) (stations : List FuelStation)
    (route : RouteInfo) (thr : ℚ) (p : FuelStation × ℚ)
    (h : p ∈ _stations_along_route hav stations route thr) :
    (_project_station_onto_route hav p.1 route (_build_route_distances hav route)).2 ≤
      (thr : WithTop ℚ) ∧
    ∃ i ∈ station_indices_near_route hav stations route.geometry thr,
      stations.get? i = some p.1 := by
  simp only [_stations_along_route] at h
  rw [List.mem_insertionSort] at h
  obtain ⟨i, hi, hbind⟩ := List.mem_filterMap.mp h
  rcases hg : stations.get? i with _ | s
  · rw [hg] at hbind
    simp at hbind
  · rw [hg] at hbind
    simp only [Option.some_bind] at hbind
    split at hbind
    · obtain rfl := Option.some.inj hbind
      refine ⟨by assumption, i, hi, hg⟩
    · simp at hbind

/-- First planner iteration of the single-mandatory-stop scenario: the
inner collection loop keeps the lone candidate. -/
theorem c4_collect (S : FuelStation) :
    collectReachable 0 (0 + 500) [(S, 300)] = ([(S, 300)], 1) := by
  norm_num [collectReachable]

/-- In the single-mandatory-stop scenario no strictly cheaper candidate
lies strictly ahead of the stop. -/
theorem c4_filter (S : FuelStation) : List.filter (fun c : FuelStation × ℚ =>
    decide ((300:ℚ) < c.2) && decide (c.2 ≤ 300 + 500) &&
      decide (c.1.price_per_gallon < S.price_per_gallon)) [(S, 300)] = [] := by
  simp

set_option maxRecDepth 20000 in
/-- First planner iteration of the single-mandatory-stop scenario:
drive to mile 300 and buy 100 miles worth of fuel (tank still holds
200 of its 500 after the drive; target is the 300 remaining miles). -/
theorem c4_step1 (S : FuelStation) (mpg : ℚ) :
    planStep [(S, 300)] 600 500 mpg ⟨0, 500, [(S, 300)], []⟩ =
      Sum.inl ⟨300, 300, [], [⟨S, 300, 100 / mpg, 100 / mpg * S.price_per_gallon⟩]⟩ := by
  simp only [planStep]
  rw [if_pos (by norm_num : (0:ℚ) < 600)]
  rw [if_neg (by norm_num : ¬ (600:ℚ) ≤ 0 + 500)]
  rw [c4_collect S]
  simp only [minByKey, List.foldl_nil]
  rw [c4_filter S]
  norm_num [eps]

/-- Second planner iteration of the single-mandatory-stop scenario: the
destination is now in reach on the tank, exit with the one stop. -/
theorem c4_step2 (S : FuelStation) (mpg : ℚ) :
    planStep [(S, 300)] 600 500 mpg
      ⟨300, 300, [], [⟨S, 300, 100 / mpg, 100 / mpg * S.price_per_gallon⟩]⟩ =
      Sum.inr ([⟨S, 300, 100 / mpg, 100 / mpg * S.price_per_gallon⟩], Terminal.arrived) := by
  norm_num [planStep, eps]

/-- Step equation of the loop driver: a continuing iteration. -/
theorem planRun_succ_inl (candidates : List (FuelStation × ℚ))
    (route_distance vehicle_range_miles mpg : ℚ) (n : Nat) (s s1 : PlanState)
    (h : planStep candidates route_distance vehicle_range_miles mpg s = Sum.inl s1) :
    planRun candidates route_distance vehicle_range_miles mpg (n + 1) s =
      planRun candidates route_distance vehicle_range_miles mpg n s1 := by
  simp only [planRun, h]

/-- Step equation of the loop driver: a loop exit. -/
theorem planRun_succ_inr (candidates : List (FuelStation × ℚ))
    (route_distance vehicle_range_miles mpg : ℚ) (n : Nat) (s : PlanState)
    (out : List FuelStopPlan × Terminal)
    (h : planStep candidates route_distance vehicle_range_miles mpg s = Sum.inr out) :
    planRun candidates route_distance vehicle_range_miles mpg (n + 1) s = out := by
  simp only [planRun, h]

/-! Claim theorems. -/

/-- Claim C1, counterexample: the claim says the planner, at a position
`p` with the route not finishable (`p + range < route_distance`),
considers every candidate with along-route distance in
`(p, p + range]` and strands only if that interval holds no candidate.
On the concrete run below (route 1000 mi, range 100 mi, candidates at
miles 10 and 20) the planner reaches the state at mile 10 — shown by
the second conjunct, one `planStep` from the initial state — where the
route is not finishable (fourth conjunct) and the candidate at mile 20
lies in `(10, 110]` (last conjuncts), yet the step strands (third
conjunct) and the whole run returns the partial plan with terminal
state Stranded (first conjunct): the candidate at mile 20 was already
consumed by the cursor in the first iteration and is never
reconsidered. -/
theorem C1_strands_despite_candidate_cex :
    compute_fuel_plan_from_candidates strandCands 1000 100 10 =
      ([strandStop], Terminal.stranded) ∧
    planStep strandCands 1000 100 10 ⟨0, 100, strandCands, []⟩ =
      Sum.inl ⟨10, 100, [], [strandStop]⟩ ∧
    planStep strandCands 1000 100 10 ⟨10, 100, [], [strandStop]⟩ =
      Sum.inr ([strandStop], Terminal.stranded) ∧
    (10 : ℚ) + 100 < 1000 ∧
    (stationB, (20 : ℚ)) ∈ strandCands ∧ (10 : ℚ) < 20 ∧ (20 : ℚ) ≤ 10 + 100 := by
  refine ⟨?_, ?_, ?_, by norm_num, ?_, by norm_num, by norm_num⟩
  · norm_num [compute_fuel_plan_from_candidates, planRun, planStep, collectReachable,
      minByKey, strandCands, stationA, stationB, eps, strandStop]
  · norm_num [planStep, collectReachable, minByKey, strandCands, stationA, stationB,
      eps, strandStop]
  · norm_num [planStep, collectReachable, minByKey, eps]
  · simp [strandCands, stationB]

/-- Claim C1, amended: at a loop state whose position `p` cannot finish
the route on a full tank (`p < route_distance` and
`p + vehicle_range_miles < route_distance`), with the remaining
candidate suffix sorted by along-route distance, the planner considers
exactly the NOT-YET-CONSUMED candidates (those at or past its cursor)
whose distance lies in the CLOSED interval `[p, p + vehicle_range_miles]`:
it strands at this state if and only if no such suffix candidate
exists, and otherwise moves to one of them (a suffix candidate in that
window).  Candidates before the cursor — swept in earlier iterations —
are not reconsidered even when they lie in `(p, p + range]`. -/
theorem C1_reachable_window_amended (candidates : List (FuelStation × ℚ))
    (route_distance vehicle_range_miles mpg : ℚ) (s : PlanState)
    (hsort : s.remaining.Pairwise (fun a b => a.2 ≤ b.2))
    (hpos : s.current_pos < route_distance)
    (hfar : s.current_pos + vehicle_range_miles < route_distance) :
    (planStep candidates route_distance vehicle_range_miles mpg s =
        Sum.inr (s.stops, Terminal.stranded) ↔
      ∀ c ∈ s.remaining,
        ¬(s.current_pos ≤ c.2 ∧ c.2 ≤ s.current_pos + vehicle_range_miles)) ∧
    ((∃ c ∈ s.remaining,
        s.current_pos ≤ c.2 ∧ c.2 ≤ s.current_pos + vehicle_range_miles) →
      ∃ s1, planStep candidates route_distance vehicle_range_miles mpg s = Sum.inl s1 ∧
        s.current_pos ≤ s1.current_pos ∧
        s1.current_pos ≤ s.current_pos + vehicle_range_miles ∧
        ∃ c ∈ s.remaining, c.2 = s1.current_pos) := by
  have hnle : ¬ route_distance ≤ s.current_pos + vehicle_range_miles := not_le.mpr hfar
  rcases hmk : minByKey (fun c : FuelStation × ℚ => c.1.price_per_gallon)
      (collectReachable s.current_pos (s.current_pos + vehicle_range_miles) s.remaining).1
    with _ | cheapest
  · have hstep : planStep candidates route_distance vehicle_range_miles mpg s =
        Sum.inr (s.stops, Terminal.stranded) := by
      simp only [planStep, if_pos hpos, if_neg hnle, hmk]
    have hempty := (minByKey_eq_none_iff
      (fun c : FuelStation × ℚ => c.1.price_per_gallon) _).mp hmk
    have hallnot := (collectReachable_nil_iff _ _ _ hsort).mp hempty
    exact ⟨⟨fun _ => hallnot, fun _ => hstep⟩,
      fun ⟨c, hc, hcc⟩ => absurd hcc (hallnot c hc)⟩
  · have hmem := minByKey_mem _ _ _ hmk
    obtain ⟨hin, hge, hle1⟩ := collectReachable_mem _ _ _ _ hmem
    have hstep : ∃ s1, planStep candidates route_distance vehicle_range_miles mpg s =
        Sum.inl s1 ∧ s1.current_pos = cheapest.2 := by
      simp only [planStep, if_pos hpos, if_neg hnle, hmk]
      split
      · exact ⟨_, rfl, rfl⟩
      · exact ⟨_, rfl, rfl⟩
    obtain ⟨s1, he, hp1⟩ := hstep
    constructor
    · constructor
      · intro h
        rw [he] at h
        exact absurd h (by simp)
      · intro hall
        exact absurd ⟨hge, hle1⟩ (hall cheapest hin)
    · intro _
      exact ⟨s1, he, hp1 ▸ hge, hp1 ▸ hle1, cheapest, hin, hp1.symm⟩

/-- Witness for the amended claim C1 at the initial state of the
stranding example. -/
theorem C1_reachable_window_amended_witness :
    ((planStep strandCands 1000 100 10 ⟨0, 100, strandCands, []⟩ =
        Sum.inr (([] : List FuelStopPlan), Terminal.stranded) ↔
      ∀ c ∈ strandCands, ¬((0 : ℚ) ≤ c.2 ∧ c.2 ≤ (0 : ℚ) + 100)) ∧
    ((∃ c ∈ strandCands, (0 : ℚ) ≤ c.2 ∧ c.2 ≤ (0 : ℚ) + 100) →
      ∃ s1, planStep strandCands 1000 100 10 ⟨0, 100, strandCands, []⟩ = Sum.inl s1 ∧
        (0 : ℚ) ≤ s1.current_pos ∧
        s1.current_pos ≤ (0 : ℚ) + 100 ∧
        ∃ c ∈ strandCands, c.2 = s1.current_pos)) :=
  C1_reachable_window_amended strandCands 1000 100 10 ⟨0, 100, strandCands, []⟩
    (by norm_num [strandCands, List.pairwise_cons])
    (by norm_num) (by norm_num)

/-- Claim C2, counterexample: the claim says `distance_along_route` is
the cumulative distance of the specific segment ENDPOINT that achieved
the global minimum — the start vertex cumulative distance when the
start vertex is nearer.  For the station sitting exactly on vertex 0 of
a three-vertex polyline, the first segment start vertex is strictly
nearer (distance 0 versus 1, second and third conjuncts), vertex 0 has
cumulative distance 0 (fourth conjunct), yet the code returns
along-route distance 1, the cumulative distance of the segment END
vertex (first conjunct), and 1 ≠ 0 (last conjunct). -/
theorem C2_projection_along_cex :
    _project_station_onto_route absHav cexStation cexRoute
        (_build_route_distances absHav cexRoute) = (1, ((0 : ℚ) : WithTop ℚ)) ∧
    absHav cexStation.latitude cexStation.longitude 0 0 = 0 ∧
    absHav cexStation.latitude cexStation.longitude 1 0 = 1 ∧
    _build_route_distances absHav cexRoute = [0, 1, 2] ∧
    (1 : ℚ) ≠ 0 := by
  refine ⟨?_, ?_, ?_, ?_, by norm_num⟩
  · norm_num [_project_station_onto_route, _segment_endpoint_dists, _build_route_distances,
      projFold, absHav, cexStation, cexRoute]
  · norm_num [absHav, cexStation]
  · norm_num [absHav, cexStation]
  · norm_num [_build_route_distances, absHav, cexRoute]

/-- Claim C2, amended: for every station and route polyline with at
least two vertices, the projection returns as `distance_off_route` the
global minimum over all consecutive segments of the smaller of the two
endpoint distances (first conjunct: the result is a lower bound of all
per-segment values; second conjunct: it is attained), and as
`distance_along_route` the cumulative route distance of the END vertex
of the FIRST segment attaining that global minimum — regardless of
which of the two endpoints of that segment was nearer (second
conjunct, with every earlier segment strictly worse). -/
theorem C2_projection_amended (hav : Hav) (station : FuelStation) (route : RouteInfo)
    (h2 : 2 ≤ route.geometry.length) :
    (∀ iv ∈ _segment_endpoint_dists hav station route.geometry,
      (_project_station_onto_route hav station route (_build_route_distances hav route)).2 ≤
        (iv.2 : WithTop ℚ)) ∧
    ∃ l1 iv l2,
      _segment_endpoint_dists hav station route.geometry = l1 ++ iv :: l2 ∧
      (_project_station_onto_route hav station route (_build_route_distances hav route)).2 =
        (iv.2 : WithTop ℚ) ∧
      (_project_station_onto_route hav station route (_build_route_distances hav route)).1 =
        (_build_route_distances hav route).getD iv.1 0 ∧
      ∀ jv ∈ l1,
        (_project_station_onto_route hav station route (_build_route_distances hav route)).2 <
          (jv.2 : WithTop ℚ) := by
  constructor
  · intro iv hiv
    unfold _project_station_onto_route
    rw [projFold_snd]
    exact foldl_min_le_mem _ _ iv hiv
  · rcases projFold_fst_spec (_build_route_distances hav route)
        (_segment_endpoint_dists hav station route.geometry) (0, ⊤)
      with ⟨hall, _⟩ | ⟨l1, iv, l2, hsplit, _, hsnd, hfst, hprev⟩
    · exfalso
      have hlen : 0 < (_segment_endpoint_dists hav station route.geometry).length := by
        simp only [_segment_endpoint_dists, List.length_map, List.enumFrom_length,
          List.length_zip, List.length_tail]
        omega
      obtain ⟨iv, hiv⟩ := List.exists_mem_of_length_pos hlen
      exact hall iv hiv (WithTop.coe_lt_top _)
    · exact ⟨l1, iv, l2, hsplit, hsnd, hfst, hprev⟩

/-- Witness for the amended claim C2 on the three-vertex example
route. -/
theorem C2_projection_amended_witness :
    (∀ iv ∈ _segment_endpoint_dists absHav cexStation cexRoute.geometry,
      (_project_station_onto_route absHav cexStation cexRoute
        (_build_route_distances absHav cexRoute)).2 ≤ (iv.2 : WithTop ℚ)) ∧
    ∃ l1 iv l2,
      _segment_endpoint_dists absHav cexStation cexRoute.geometry = l1 ++ iv :: l2 ∧
      (_project_station_onto_route absHav cexStation cexRoute
        (_build_route_distances absHav cexRoute)).2 = (iv.2 : WithTop ℚ) ∧
      (_project_station_onto_route absHav cexStation cexRoute
        (_build_route_distances absHav cexRoute)).1 =
        (_build_route_distances absHav cexRoute).getD iv.1 0 ∧
      ∀ jv ∈ l1,
        (_project_station_onto_route absHav cexStation cexRoute
          (_build_route_distances absHav cexRoute)).2 < (jv.2 : WithTop ℚ) :=
  C2_projection_amended absHav cexStation cexRoute (by norm_num [cexRoute])

/-- Claim C3: whenever the loop reaches a state whose position plus
remaining fuel covers the route (`route_distance ≤ pos + fuel`, with
the tank-capacity invariant `fuel ≤ vehicle_range_miles` that every
reachable state satisfies), the planner exits with terminal state
Arrived and the returned plan is exactly the stops accumulated so far —
no entry is created at or after that state. -/
theorem C3_arrived_no_further_stop (candidates : List (FuelStation × ℚ))
    (route_distance vehicle_range_miles mpg : ℚ) (n : Nat) (s : PlanState)
    (hfuel : s.fuel_in_tank_miles ≤ vehicle_range_miles)
    (hreach : route_distance ≤ s.current_pos + s.fuel_in_tank_miles) :
    planRun candidates route_distance vehicle_range_miles mpg (n + 1) s =
      (s.stops, Terminal.arrived) :=
  planRun_arrived candidates route_distance vehicle_range_miles mpg n s hfuel hreach

/-- Witness for claim C3: a mid-route state at mile 40 with 100 miles
of fuel and a 90-mile route coasts in, keeping exactly the one
accumulated stop. -/
theorem C3_arrived_no_further_stop_witness :
    (100 : ℚ) ≤ 100 ∧ (90 : ℚ) ≤ 40 + 100 ∧
    planRun strandCands 90 100 10 3 ⟨40, 100, strandCands, [strandStop]⟩ =
      ([strandStop], Terminal.arrived) :=
  ⟨by norm_num, by norm_num,
    C3_arrived_no_further_stop strandCands 90 100 10 2 ⟨40, 100, strandCands, [strandStop]⟩
      (by norm_num) (by norm_num)⟩

/-- Claim C4, counterexample: on the spec scenario (route 600 mi,
range 500 mi, one candidate at mile 300, price 4.0, mpg 10) the claim
predicts `gallons_purchased = (600-300)/mpg = 30`; the code buys only
the fuel missing beyond what remains in the tank after driving 300
miles (500 - 300 = 200 miles worth), namely 100 miles worth = 10
gallons, and 10 ≠ (600-300)/10. -/
theorem C4_single_stop_gallons_cex :
    compute_fuel_plan_from_candidates [(c4Station, 300)] 600 500 10 =
      ([⟨c4Station, 300, 10, 40⟩], Terminal.arrived) ∧
    (10 : ℚ) ≠ (600 - 300) / 10 := by
  constructor
  · norm_num [compute_fuel_plan_from_candidates, planRun, planStep, collectReachable,
      minByKey, c4Station, eps]
  · norm_num

/-- Claim C4, amended: for a route of 600 miles, vehicle range 500,
positive mpg and exactly one candidate station at along-route distance
300 (any price), the planner returns exactly one stop, at distance 300,
with `gallons_purchased = (600 - 300 - (500 - 300)) / mpg = 100 / mpg`:
the purchase tops the tank to exactly what is needed to finish, namely
the remaining 300 miles minus the 200 miles of fuel still in the tank
on arrival at the station. -/
theorem C4_single_stop_amended (S : FuelStation) (mpg : ℚ) (hmpg : 0 < mpg) :
    compute_fuel_plan_from_candidates [(S, 300)] 600 500 mpg =
      ([⟨S, 300, 100 / mpg, 100 / mpg * S.price_per_gallon⟩], Terminal.arrived) := by
  show planRun [(S, 300)] 600 500 mpg (1 + 1) ⟨0, 500, [(S, 300)], []⟩ = _
  rw [planRun_succ_inl _ _ _ _ _ _ _ (c4_step1 S mpg)]
  rw [planRun_succ_inr _ _ _ _ _ _ _ (c4_step2 S mpg)]

/-- Witness for the amended claim C4 at price 4.0 and mpg 10. -/
theorem C4_single_stop_amended_witness :
    (0 : ℚ) < 10 ∧
    compute_fuel_plan_from_candidates [(c4Station, 300)] 600 500 10 =
      ([⟨c4Station, 300, 100 / 10, 100 / 10 * c4Station.price_per_gallon⟩],
        Terminal.arrived) :=
  ⟨by norm_num, C4_single_stop_amended c4Station 10 (by norm_num)⟩

/-- Claim C5: for every station list, positive mpg, and route whose
distance is at most the (positive) vehicle range, the planner returns
an empty stop sequence — the no-stop shortcut. -/
theorem C5_no_stop_shortcut (hav : Hav) (stations : List FuelStation) (route : RouteInfo)
    (vehicle_range_miles mpg : ℚ) (hrange : 0 < vehicle_range_miles) (hmpg : 0 < mpg)
    (hle : route.distance_miles ≤ vehicle_range_miles) :
    compute_fuel_plan hav stations route vehicle_range_miles mpg = [] := by
  unfold compute_fuel_plan
  by_cases hc : (_stations_along_route hav stations route 10).isEmpty
  · simp only [hc, if_true]
  · simp only [hc, if_false]
    unfold compute_fuel_plan_from_candidates
    rw [planRun_arrived]
    · simp
    · exact le_refl _
    · simpa using hle

/-- Witness for claim C5: a 1-mile route with a 500-mile range and a
nonempty candidate set yields no stops. -/
theorem C5_no_stop_shortcut_witness :
    (0 : ℚ) < 500 ∧ (0 : ℚ) < 10 ∧ wRoute.distance_miles ≤ 500 ∧
    compute_fuel_plan absHav wCatalog wRoute 500 10 = [] :=
  ⟨by norm_num, by norm_num, by norm_num [wRoute],
    C5_no_stop_shortcut absHav wCatalog wRoute 500 10 (by norm_num) (by norm_num)
      (by norm_num [wRoute])⟩

/-- Claim C6: with a positive vehicle range and a full initial tank,
every loop state reachable during the planner execution keeps
`fuel_in_tank_miles ≤ vehicle_range_miles` — no sequence of purchases
overfills the tank.  Loop states are the states after each full
iteration (move plus purchase); within an iteration the move only
decreases the fuel, so the bound holds at the intermediate after-move
point as well (see `planStep_fuel_le`, whose proof bounds the
after-move value). -/
theorem C6_tank_capacity_invariant (candidates : List (FuelStation × ℚ))
    (route_distance vehicle_range_miles mpg : ℚ) (s : PlanState)
    (hrange : 0 < vehicle_range_miles)
    (hreach : Relation.ReflTransGen
      (planStepRel candidates route_distance vehicle_range_miles mpg)
      ⟨0, vehicle_range_miles, candidates, []⟩ s) :
    s.fuel_in_tank_miles ≤ vehicle_range_miles := by
  induction hreach with
  | refl => exact le_refl _
  | tail hab hbc ih =>
      exact planStep_fuel_le candidates route_distance vehicle_range_miles mpg _ _
        (le_of_lt hrange) ih hbc

/-- Witness for claim C6 after one real planner step of the stranding
example (drive to mile 10 and buy one gallon). -/
theorem C6_tank_capacity_invariant_witness :
    (0 : ℚ) < 100 ∧
    Relation.ReflTransGen (planStepRel strandCands 1000 100 10)
      ⟨0, 100, strandCands, []⟩ ⟨10, 100, [], [strandStop]⟩ ∧
    (PlanState.mk 10 100 [] [strandStop]).fuel_in_tank_miles ≤ 100 := by
  have hstep : planStep strandCands 1000 100 10 ⟨0, 100, strandCands, []⟩ =
      Sum.inl ⟨10, 100, [], [strandStop]⟩ := by
    norm_num [planStep, collectReachable, minByKey, strandCands, stationA, stationB,
      eps, strandStop]
  have hreach : Relation.ReflTransGen (planStepRel strandCands 1000 100 10)
      ⟨0, 100, strandCands, []⟩ ⟨10, 100, [], [strandStop]⟩ :=
    Relation.ReflTransGen.single hstep
  exact ⟨by norm_num, hreach,
    C6_tank_capacity_invariant strandCands 1000 100 10 _ (by norm_num) hreach⟩

/-- Claim C7: for every input, `distance_along_route_miles` is
non-decreasing across successive entries of the list of stops returned
by the planner. -/
theorem C7_stops_monotone (hav : Hav) (stations : List FuelStation) (route : RouteInfo)
    (vehicle_range_miles mpg : ℚ) :
    List.Chain' (fun a b => a.distance_along_route_miles ≤ b.distance_along_route_miles)
      (compute_fuel_plan hav stations route vehicle_range_miles mpg) := by
  unfold compute_fuel_plan
  by_cases hc : (_stations_along_route hav stations route 10).isEmpty
  · simp only [hc, if_true]
    exact List.chain'_nil
  · simp only [hc, if_false]
    unfold compute_fuel_plan_from_candidates
    exact planRun_stops_chain _ _ _ _ _ _ List.chain'_nil (by intro st h; simp at h)

set_option maxRecDepth 4000 in
/-- Claim C8, counterexample: the claim says at most approximately 150
radius queries are ever issued; a 299-vertex polyline gets stride
`max 1 (299 / 150) = 1` and therefore 299 radius queries — essentially
double the stated bound. -/
theorem C8_sampling_bound_cex : num_radius_queries 299 = 299 ∧ 150 < 299 := by
  constructor
  · decide
  · decide

/-- Claim C8, amended: with stride `max 1 (n / 150)`, the number of
sampled vertices — one radius query each — never exceeds 299, for every
vertex count `n` (it is at most `n ≤ 299` below 300 vertices and at
most `150 + ceil(149 / (n / 150)) ≤ 225` from 300 vertices on; the
~150 figure is approached only for long polylines). -/
theorem C8_sampling_bound_amended : ∀ n : Nat, num_radius_queries n ≤ 299 := by
  intro n
  unfold num_radius_queries sampled_vertex_indices
  rcases Nat.eq_zero_or_pos n with hn | hn
  · simp [hn]
  · rw [if_neg (Nat.pos_iff_ne_zero.mp hn)]
    rw [range_filter_mod_length _ n hn]
    have hdiv : (n - 1) / max 1 (n / 150) ≤ 298 := by
      rcases le_or_lt n 299 with hle | hgt
      · calc (n - 1) / max 1 (n / 150) ≤ n - 1 := Nat.div_le_self _ _
          _ ≤ 298 := by omega
      · have hmax : max 1 (n / 150) = n / 150 := max_eq_right (by omega)
        rw [hmax]
        have h2 := (Nat.div_lt_iff_lt_mul (show 0 < n / 150 by omega)).mpr
          (by omega : n - 1 < 299 * (n / 150))
        omega
    omega

/-- Claim C9: every index returned by `station_indices_within_radius`
and by `station_indices_near_route` is a valid position in the catalog
the spatial index was built from — the radian-coordinate list is the
image of exactly that catalog — so indexing the catalog with a returned
index (as `_stations_along_route` does when its caller passes the
catalog as the station list) can never go out of bounds. -/
theorem C9_indices_in_bounds :
    (∀ (hav : Hav) (catalog : List FuelStation) (lat lon radius : ℚ) (i : Nat),
      i ∈ station_indices_within_radius hav catalog lat lon radius →
        i < catalog.length) ∧
    (∀ (hav : Hav) (catalog : List FuelStation) (geom : List RoutePoint) (r : ℚ)
        (i : Nat),
      i ∈ station_indices_near_route hav catalog geom r →
        i < catalog.length ∧ (catalog.get? i).isSome) :=
  ⟨fun hav catalog lat lon radius i h =>
      mem_station_indices_within_radius hav catalog lat lon radius i h,
   fun hav catalog geom r i h => by
      have hlt := mem_station_indices_near_route hav catalog geom r i h
      refine ⟨hlt, ?_⟩
      rw [List.get?_eq_get hlt]
      rfl⟩

/-- Witness for claim C9 on the one-station catalog. -/
theorem C9_indices_in_bounds_witness :
    (0 ∈ station_indices_within_radius absHav wCatalog 0 0 10 ∧ 0 < wCatalog.length) ∧
    (0 ∈ station_indices_near_route absHav wCatalog wRoute.geometry 10 ∧
      0 < wCatalog.length ∧ (wCatalog.get? 0).isSome) := by
  have h1 : 0 ∈ station_indices_within_radius absHav wCatalog 0 0 10 := by
    norm_num [station_indices_within_radius, absHav, wCatalog, List.enum, List.enumFrom,
      List.filter_cons]
  have h2 : 0 ∈ station_indices_near_route absHav wCatalog wRoute.geometry 10 := by
    norm_num [station_indices_near_route, station_indices_within_radius,
      sampled_vertex_indices, absHav, wCatalog, wRoute, List.insertionSort,
      List.orderedInsert, List.dedup, List.pwFilter, List.range, List.range.loop,
      List.enum, List.enumFrom, List.filter_cons, List.filterMap_cons, List.flatten]
  exact ⟨⟨h1, C9_indices_in_bounds.1 absHav wCatalog 0 0 10 0 h1⟩,
    ⟨h2, C9_indices_in_bounds.2 absHav wCatalog wRoute.geometry 10 0 h2⟩⟩

/-- Claim C10: both candidate-filtering stages use one and the same
fixed corridor threshold of 10.0 miles.  First conjunct:
`compute_fuel_plan` invokes the filter with exactly the threshold 10
(and its signature offers no way to change it).  Second conjunct: for
any threshold value, every candidate accepted by
`_stations_along_route` passed the projector off-route test against
that same single value that was also the radius of the spatial-index
near-route query its catalog index came from — the two stages are
consistent by construction. -/
theorem C10_corridor_threshold :
    (∀ (hav : Hav) (stations : List FuelStation) (route : RouteInfo)
        (vehicle_range_miles mpg : ℚ),
      compute_fuel_plan hav stations route vehicle_range_miles mpg =
        if (_stations_along_route hav stations route 10).isEmpty then []
        else (compute_fuel_plan_from_candidates
          (_stations_along_route hav stations route 10)
          route.distance_miles vehicle_range_miles mpg).1) ∧
    (∀ (hav : Hav) (stations : List FuelStation) (route : RouteInfo) (thr : ℚ)
        (p : FuelStation × ℚ), p ∈ _stations_along_route hav stations route thr →
      (_project_station_onto_route hav p.1 route (_build_route_distances hav route)).2 ≤
        (thr : WithTop ℚ) ∧
      ∃ i ∈ station_indices_near_route hav stations route.geometry thr,
        stations.get? i = some p.1) :=
  ⟨fun _ _ _ _ _ => rfl,
   fun hav stations route thr p h => mem_stations_along_route hav stations route thr p h⟩

/-- Witness for claim C10 on the one-station catalog and two-vertex
route. -/
theorem C10_corridor_threshold_witness :
    ((⟨"W", "Station W", 0, 0, 3⟩, (1 : ℚ)) ∈ _stations_along_route absHav wCatalog wRoute 10) ∧
    (_project_station_onto_route absHav (⟨"W", "Station W", 0, 0, 3⟩ : FuelStation) wRoute
      (_build_route_distances absHav wRoute)).2 ≤ ((10 : ℚ) : WithTop ℚ) ∧
    ∃ i ∈ station_indices_near_route absHav wCatalog wRoute.geometry 10,
      wCatalog.get? i = some ⟨"W", "Station W", 0, 0, 3⟩ := by
  have hmem : ((⟨"W", "Station W", 0, 0, 3⟩ : FuelStation), (1 : ℚ)) ∈
      _stations_along_route absHav wCatalog wRoute 10 := by
    have heval : _stations_along_route absHav wCatalog wRoute 10 =
        [(⟨"W", "Station W", 0, 0, 3⟩, 1)] := by
      norm_num [_stations_along_route, station_indices_near_route,
        station_indices_within_radius, sampled_vertex_indices, _build_route_distances,
        _project_station_onto_route, _segment_endpoint_dists, projFold, absHav, wCatalog,
        wRoute, List.insertionSort, List.orderedInsert, List.dedup, List.pwFilter,
        List.range, List.range.loop, List.enum, List.enumFrom, List.filter_cons,
        List.filterMap_cons, Option.bind, List.flatten]
    rw [heval]
    exact List.mem_singleton_self _
  have h := C10_corridor_threshold.2 absHav wCatalog wRoute 10
    (⟨"W", "Station W", 0, 0, 3⟩, 1) hmem
  exact ⟨hmem, h.1, h.2⟩

end Spotter
